import Mathlib

set_option autoImplicit false

/-!
Shallow embedding of the `react-insta-validation` form validation engine
(`src/FormValidator.js` and `src/form-utils.js`).

JavaScript values that may occur in a form state are modelled by `JSVal`:
finite numbers as integers (`vNum`), `NaN` separately (`vNaN`), objects as
ordered association lists (`vObj`), functions stored in a form state as the
opaque `vFunc` (the engine never calls a function held in the form state),
and a `Date` as `vDate` carrying its `toJSON`/ISO string.  JS truthiness,
the `isEmpty` helper, dotted-path access (the `object-path` dependency,
specified in the documentation as the external Path Accessor collaborator)
and the JSON stringify/parse round trip of `bindValue` are each modelled by
an explicit function below.
-/

namespace ReactInstaValidation

inductive JSVal : Type where
  | vUndef : JSVal
  | vNull : JSVal
  | vBool : Bool → JSVal
  | vNum : Int → JSVal
  | vNaN : JSVal
  | vStr : String → JSVal
  | vArr : List JSVal → JSVal
  | vObj : List (String × JSVal) → JSVal
  | vFunc : JSVal
  | vDate : String → JSVal
  deriving Repr

open JSVal

/-- Whether a JS value is `undefined` (the `fieldValue !== undefined` tests). -/
def isUndef : JSVal → Bool
  | vUndef => true
  | _ => false

/-- JS strict comparison `x === b` of a value against a boolean: true exactly
when the value is the same boolean (a non-boolean is never strictly equal to
a boolean). -/
def strictEqBool : JSVal → Bool → Bool
  | vBool b', b => b' == b
  | _, _ => false

/-- JS truthiness (`!!value`): `undefined`, `null`, `false`, `0`, `NaN` and
`""` are falsy; every object, array, function and date is truthy. -/
def jsTruthy : JSVal → Bool
  | vUndef => false
  | vNull => false
  | vBool b => b
  | vNum n => n != 0
  | vNaN => false
  | vStr s => s != ""
  | vArr _ => true
  | vObj _ => true
  | vFunc => true
  | vDate _ => true

/-- Truthiness of an optional JS string (`!s` is true for `undefined` and `""`). -/
def optStrTruthy : Option String → Bool
  | some s => s != ""
  | none => false

/-- Splits a list of characters at `.`, accumulating the current segment in
reverse.  Models JavaScript `String.prototype.split('.')`, which always
returns at least one element. -/
def splitDotAux : List Char → List Char → List String
  | [], acc => [String.mk acc.reverse]
  | c :: cs, acc =>
    if c = '.' then String.mk acc.reverse :: splitDotAux cs []
    else splitDotAux cs (c :: acc)

/-- The segments of a dotted field path, as split by the Path Accessor. -/
def splitDot (s : String) : List String := splitDotAux s.toList []

/-- First segment of a dotted path (total, since `splitDot` never returns `[]`). -/
def firstKey (s : String) : String := (splitDot s).headD ""

/-- Last segment of a dotted path (`keys[keys.length - 1]` in the source). -/
def lastKey (s : String) : String := (splitDot s).getLastD ""

/-- First binding of key `k` in an ordered association list (JS property read). -/
def lookupKey {α : Type} (k : String) : List (String × α) → Option α
  | [] => none
  | (k', v) :: rest => if k' = k then some v else lookupKey k rest

/-- JS property write `obj[k] = v`: replaces the value in place when the key
exists, otherwise appends the new binding at the end (JS key-insertion order). -/
def setKey {α : Type} (k : String) (v : α) : List (String × α) → List (String × α)
  | [] => [(k, v)]
  | (k', w) :: rest => if k' = k then (k, v) :: rest else (k', w) :: setKey k v rest

/-- Path Accessor `get` (the `object-path` dependency): walks the path
segments, returning `undefined` whenever a segment is missing or the current
value is not a container.  `FormValidator.getPropertyByPath` additionally
wraps this in try/catch mapping any failure to `undefined`, so the total
function below is the observable behaviour. -/
def objectPathGet : JSVal → List String → JSVal
  | v, [] => v
  | vObj fs, k :: rest =>
    match lookupKey k fs with
    | some w => objectPathGet w rest
    | none => vUndef
  | vArr xs, k :: rest =>
    match k.toNat? with
    | some i =>
      match xs.get? i with
      | some w => objectPathGet w rest
      | none => vUndef
    | none => vUndef
  | _, _ :: _ => vUndef

/-- Path Accessor `set` (the `object-path` dependency): sets the value at the
dotted path, creating intermediate objects where the existing value is
missing or not a container, and leaving other keys untouched.  Numeric
segments index arrays; an out-of-range or non-numeric segment on an array
leaves the array unchanged (the engine only ever sets object paths). -/
def objectPathSet : JSVal → List String → JSVal → JSVal
  | _, [], v => v
  | vObj fs, [k], v => vObj (setKey k v fs)
  | vObj fs, k :: k2 :: rest, v =>
    let child :=
      match lookupKey k fs with
      | some (vObj gs) => vObj gs
      | some (vArr xs) => vArr xs
      | _ => vObj []
    vObj (setKey k (objectPathSet child (k2 :: rest) v) fs)
  | vArr xs, [k], v =>
    match k.toNat? with
    | some i => vArr (xs.set i v)
    | none => vArr xs
  | vArr xs, k :: k2 :: rest, v =>
    match k.toNat? with
    | some i =>
      match xs.get? i with
      | some child =>
        let child' :=
          match child with
          | vObj gs => vObj gs
          | vArr ys => vArr ys
          | _ => vObj []
        vArr (xs.set i (objectPathSet child' (k2 :: rest) v))
      | none => vArr xs
    | none => vArr xs
  | root, _ :: _, _ => root

mutual
/-- The effect of `JSON.parse(JSON.stringify(v))` on a JS value: `NaN`
becomes `null`, a `Date` becomes its ISO string, an `undefined` or function
value inside an object is dropped (the key disappears) and inside an array
becomes `null`; `vUndef` marks a value `JSON.stringify` omits. -/
def jsonRoundTrip : JSVal → JSVal
  | vUndef => vUndef
  | vNull => vNull
  | vBool b => vBool b
  | vNum n => vNum n
  | vNaN => vNull
  | vStr s => vStr s
  | vFunc => vUndef
  | vDate iso => vStr iso
  | vArr xs => vArr (jsonRoundTripArr xs)
  | vObj fs => vObj (jsonRoundTripObj fs)

/-- Round trip of the elements of a JSON array: omitted values become `null`. -/
def jsonRoundTripArr : List JSVal → List JSVal
  | [] => []
  | x :: xs =>
    (match jsonRoundTrip x with
      | vUndef => vNull
      | r => r) :: jsonRoundTripArr xs

/-- Round trip of the fields of a JSON object: omitted values lose their key. -/
def jsonRoundTripObj : List (String × JSVal) → List (String × JSVal)
  | [] => []
  | (k, x) :: fs =>
    match jsonRoundTrip x with
    | vUndef => jsonRoundTripObj fs
    | r => (k, r) :: jsonRoundTripObj fs
end

/-- `bindValue` from `src/form-utils.js` lines 31-36: deep-clones the target
through a JSON stringify/parse round trip (a falsy target is replaced by a
fresh empty object first, from `target || \x7b\x7d`), then sets the value at
the dotted path with the Path Accessor and returns the new object. -/
def bindValue (path : String) (value : JSVal) (target : JSVal) : JSVal :=
  let newTarget := jsonRoundTrip (if jsTruthy target then target else vObj [])
  objectPathSet newTarget (splitDot path) value

/-- The fate of one object field under the JSON round trip: `none` when the
key is dropped (`undefined` and function values), otherwise the transformed
value (`NaN` to `null`, a `Date` to its ISO string, JSON values unchanged). -/
def jsonRoundTripField (v : JSVal) : Option JSVal :=
  match jsonRoundTrip v with
  | vUndef => none
  | r => some r

/-! The validation engine of `src/FormValidator.js`. -/

/-- A validation method as it appears on a rule: either a directly supplied
predicate function (called with one destructured object, modelled curried as
value, args, form, group) or the name of a predicate in the Predicate
Library (the `validator` dependency). -/
inductive MethodSpec : Type where
  | fn : (JSVal → List JSVal → JSVal → JSVal → JSVal) → MethodSpec
  | byName : String → MethodSpec

/-- Truthiness of an optional `method` attribute: a function is truthy; a
method name is truthy unless it is the empty string. -/
def methodTruthy : Option MethodSpec → Bool
  | some (MethodSpec.fn _) => true
  | some (MethodSpec.byName s) => s != ""
  | none => false

/-- A raw rule object as passed to the registration entry points
(`registerGlobalRules`, `registerFormRules`, `registerFieldValidations`):
every attribute may be absent (`undefined`). -/
structure RuleDecl where
  name : Option String := none
  field : Option String := none
  method : Option MethodSpec := none
  message : Option String := none
  args : Option (List JSVal) := none
  validWhen : Option Bool := none
  skipIfEmpty : Option Bool := none
  groupId : Option String := none

/-- A resolved field validation as stored in `fieldValidations` by
`registerFieldValidations`.  A declaration without a `field` attribute is
stored in JS under the coerced property key `"undefined"`, which is how the
`field` string below represents it. -/
structure FieldRule where
  field : String
  groupId : Option String := none
  name : Option String := none
  message : Option String := none
  method : Option MethodSpec := none
  args : List JSVal := []
  validWhen : Bool := true
  skipIfEmpty : Bool := true

/-- One per-field entry of a validation result
(`\x7bisInvalid, message, groupId?\x7d`). -/
structure FieldEntry where
  isInvalid : Bool
  message : String
  groupId : Option String := none
  deriving Repr, DecidableEq

/-- The object returned by `validate` and cached in `validationResult`:
the `isValid` flag plus the per-field entries (the JS source stores both on
one object; no field path is ever named `isValid`, so the split is faithful;
the boolean `isValid` value has no `isInvalid` or `groupId` property, so the
JS iterations over all keys reduce to iterations over the field entries). -/
structure VResult where
  isValid : Bool
  fields : List (String × FieldEntry)
  deriving Repr, DecidableEq

/-- Exceptions the engine can throw, each modelling one `throw new Error`
site (or a TypeError raised by the JS runtime itself). -/
inductive VError : Type where
  | missingRuleName
  | missingNameOrField
  | invalidOrMissingMethod (field : String)
  | methodNotAFunction (methodName : String)
  deriving Repr, DecidableEq

/-- The Predicate Library collaborator (the `validator` package): a partial
map from predicate names to functions of the value and the spread args. -/
def PredicateLib : Type := String → Option (JSVal → List JSVal → JSVal)

/-- The state of one `FormValidator` instance.  `formRules` starts as a copy
of the global rules at construction time. -/
structure ValidatorState where
  formRules : List (String × RuleDecl) := []
  fieldValidations : List FieldRule := []
  formState : JSVal := vObj []
  validationResult : Option VResult := none
  convertNumberToString : Bool := true
  defaultMessage : String := "Invalid"

/-- `FormValidator.registerGlobalRules` (lines 23-27): stores each rule under
its `name` with no validity check whatsoever; a missing name is coerced to
the property key `"undefined"`. -/
def registerGlobalRules (globalRules : List (String × RuleDecl)) (rules : List RuleDecl) :
    List (String × RuleDecl) :=
  rules.foldl (fun g rule => setKey (rule.name.getD "undefined") rule g) globalRules

/-- `FormValidator.registerFormRules` (lines 141-150): throws on the first
rule whose `name` is falsy, otherwise stores each rule under its name. -/
def registerFormRules (formRules : List (String × RuleDecl)) (rules : List RuleDecl) :
    Except VError (List (String × RuleDecl)) :=
  rules.foldlM
    (fun fr rule =>
      if optStrTruthy rule.name then Except.ok (setKey (rule.name.getD "") rule fr)
      else Except.error VError.missingRuleName)
    formRules

/-- `message || validationSpec.message` and similar JS defaulting between two
optional strings: the left operand wins when truthy. -/
def jsOrOptStr (a b : Option String) : Option String :=
  if optStrTruthy a then a else b

/-- `rule.message || this.defaultMessage`: the rule message wins when truthy. -/
def jsOrStr (a : Option String) (b : String) : String :=
  match a with
  | some s => if s = "" then b else s
  | none => b

/-- The body of the `forEach` in `FormValidator.registerFieldValidations`
(lines 187-198): merges the declaration with the named template
(`validationSpec`, the empty object when the name resolves to nothing). -/
def resolveFieldValidation (formRules : List (String × RuleDecl)) (decl : RuleDecl) : FieldRule :=
  let args := decl.args.getD []
  let validWhen := decl.validWhen.getD true
  let skipIfEmpty := decl.skipIfEmpty.getD true
  let spec : RuleDecl :=
    match decl.name with
    | some n => (lookupKey n formRules).getD {}
    | none => {}
  { field := decl.field.getD "undefined"
    groupId := decl.groupId
    name := decl.name
    message := jsOrOptStr decl.message spec.message
    method := if methodTruthy spec.method then spec.method else decl.method
    args := spec.args.getD args
    validWhen := (spec.validWhen).getD validWhen
    skipIfEmpty := (spec.skipIfEmpty).getD skipIfEmpty }

/-- `FormValidator.registerFieldValidations` (lines 164-204) on the rule
list: throws when both `name` and `field` are falsy; skips a declaration
whose `(field, name)` pair is already registered (named declarations only);
otherwise appends the resolved rule. -/
def registerFieldValidations (st : ValidatorState) (decls : List RuleDecl) :
    Except VError ValidatorState :=
  decls.foldlM
    (fun s decl =>
      if !optStrTruthy decl.name && !optStrTruthy decl.field then
        Except.error VError.missingNameOrField
      else
        let isAlreadyRegistered :=
          optStrTruthy decl.name &&
            s.fieldValidations.any fun v =>
              decide (v.field = decl.field.getD "undefined") && decide (v.name = decl.name)
        if isAlreadyRegistered then Except.ok s
        else
          Except.ok
            { s with
              fieldValidations :=
                s.fieldValidations ++ [resolveFieldValidation s.formRules decl] })
    st

/-- `FormValidator.getPropertyByPath` (lines 206-212): Path Accessor read,
with any exception mapped to `undefined` by the try/catch. -/
def getPropertyByPath (obj : JSVal) (path : String) : JSVal :=
  objectPathGet obj (splitDot path)

/-- `FormValidator.isEmpty` (lines 214-220), as written in the source:
`""` is empty for strings and length 0 for arrays, but the object branch
compares `value === \x7b\x7d` — reference equality against a fresh literal,
which is never true — and the scalar fallthrough returns `!!value`, the
truthiness (not the falsiness) of the value. -/
def isEmpty : JSVal → Bool
  | vStr s => s == ""
  | vArr xs => xs.isEmpty
  | vObj _ => false
  | vNull => false
  | vDate _ => false
  | v => jsTruthy v

/-- `FormValidator.setFieldValue` (lines 227-230). -/
def setFieldValue (st : ValidatorState) (name : String) (value : JSVal) : ValidatorState :=
  { st with formState := bindValue name value st.formState }

/-- A resolved validation method: the directly supplied function, or the
closure `(\x7bvalue, args\x7d) => validator[rule.method](value, ...args)`
capturing the (possibly undefined) method attribute. -/
inductive ResolvedMethod : Type where
  | direct : (JSVal → List JSVal → JSVal → JSVal → JSVal) → ResolvedMethod
  | closure : Option String → ResolvedMethod

/-- The method value computed by `FormValidator.getValidationFunction`. -/
def resolveMethodOf (rule : FieldRule) : ResolvedMethod :=
  match rule.method with
  | some (MethodSpec.fn f) => ResolvedMethod.direct f
  | some (MethodSpec.byName s) => ResolvedMethod.closure (some s)
  | none => ResolvedMethod.closure none

/-- A JS function value is always truthy; this is the `!method` test. -/
def resolvedTruthy : ResolvedMethod → Bool := fun _ => true

/-- `FormValidator.getValidationFunction` (lines 232-244): picks the supplied
function or builds the library-lookup closure, then guards `if (!method)
throw`.  Since `method` is always a function value, the guard can never
fire. -/
def getValidationFunction (rule : FieldRule) : Except VError ResolvedMethod :=
  let method := resolveMethodOf rule
  if resolvedTruthy method then Except.ok method
  else Except.error (VError.invalidOrMissingMethod rule.field)

/-- Invoking a resolved method during `validate`: a direct function receives
the destructured value, args, form and group; the library closure looks the
name up in the Predicate Library at call time and raises the JS TypeError
`validator[rule.method] is not a function` when the lookup fails (an absent
method attribute reads the library property `"undefined"`). -/
def invokeMethod (lib : PredicateLib) (m : ResolvedMethod) (value : JSVal) (args : List JSVal)
    (form group : JSVal) : Except VError JSVal :=
  match m with
  | ResolvedMethod.direct f => Except.ok (f value args form group)
  | ResolvedMethod.closure s =>
    match lib (s.getD "undefined") with
    | some f => Except.ok (f value args)
    | none => Except.error (VError.methodNotAFunction (s.getD "undefined"))

/-- Numeric coercion before evaluation: `typeof fieldValue === "number" &&
this.convertNumberToString ? fieldValue + "" : fieldValue` (`NaN` is a
number and stringifies to `"NaN"`). -/
def convertValue (convert : Bool) : JSVal → JSVal
  | vNum n => if convert then vStr (toString n) else vNum n
  | vNaN => if convert then vStr "NaN" else vNaN
  | v => v

/-- `FormValidator.getGroupSibblingValues` (lines 272-284): for a rule with a
truthy `groupId`, the values of every registered rule sharing that group,
keyed by the final segment of each rule's field path, read from the given
form state. -/
def getGroupSibblingValues (fieldValidations : List FieldRule) (rule : FieldRule)
    (form : JSVal) : JSVal :=
  if optStrTruthy rule.groupId then
    let groupFieldValidations := fieldValidations.filter fun v => v.groupId == rule.groupId
    vObj
      (groupFieldValidations.foldl
        (fun res v => setKey (lastKey v.field) (getPropertyByPath form v.field) res) [])
  else vObj []

/-- The group reconciliation loop of `validate` (lines 111-115): every entry
currently tagged with the satisfied rule's group is reset to
`\x7bisInvalid: false, message: ""\x7d` (losing its `groupId` tag). -/
def clearGroup (g : String) (fields : List (String × FieldEntry)) :
    List (String × FieldEntry) :=
  fields.map fun p =>
    (p.1, if p.2.groupId == some g then { isInvalid := false, message := "" } else p.2)

/-- The `else` branch of the rule loop (lines 108-117): mark the rule's field
valid, then, when the rule has a truthy `groupId`, clear every entry tagged
with the same group. -/
def markValid (rule : FieldRule) (fields : List (String × FieldEntry)) :
    List (String × FieldEntry) :=
  let fields' := setKey rule.field { isInvalid := false, message := "" } fields
  match rule.groupId with
  | some g => if g = "" then fields' else clearGroup g fields'
  | none => fields'

/-- The mutable locals of one pass of `validate`: the validation entries
being updated, the form state cache (`this.formState`), and the
`invalidFieldsInValidationAttempt` set. -/
structure PassState where
  validation : List (String × FieldEntry)
  formState : JSVal
  invalidated : List String

/-- The body of the rule loop in `FormValidator.validate` (lines 80-119) for
one rule.  The field value is read from `form` — the partial state passed to
this `validate` call — and, when defined, merged into the form state cache;
the rule is evaluated only when the value is defined and the field was not
already invalidated in this pass. -/
def processRule (lib : PredicateLib) (allRules : List FieldRule) (convert : Bool)
    (defaultMessage : String) (form : JSVal) (s : PassState) (rule : FieldRule) :
    Except VError PassState :=
  let fieldValue := getPropertyByPath form rule.field
  let formState' :=
    if isUndef fieldValue then s.formState else bindValue rule.field fieldValue s.formState
  if s.invalidated.contains rule.field || isUndef fieldValue then
    Except.ok { s with formState := formState' }
  else
    let fieldValue' := convertValue convert fieldValue
    (getValidationFunction rule).bind fun validationMethod =>
      let args := rule.args
      let empty := isEmpty fieldValue'
      let skip := empty && rule.skipIfEmpty
      let group := getGroupSibblingValues allRules rule formState'
      if skip then
        Except.ok
          { validation := markValid rule s.validation, formState := formState',
            invalidated := s.invalidated }
      else
        (invokeMethod lib validationMethod fieldValue' args formState' group).bind fun result =>
          if strictEqBool result rule.validWhen then
            Except.ok
              { validation := markValid rule s.validation, formState := formState',
                invalidated := s.invalidated }
          else
            Except.ok
              { validation :=
                  setKey rule.field
                    { isInvalid := true, message := jsOrStr rule.message defaultMessage,
                      groupId := rule.groupId }
                    s.validation,
                formState := formState',
                invalidated := rule.field :: s.invalidated }

/-- The rule loop of `validate`, over the remaining rules. -/
def runPass (lib : PredicateLib) (allRules : List FieldRule) (convert : Bool)
    (defaultMessage : String) (form : JSVal) :
    List FieldRule → PassState → Except VError PassState
  | [], s => Except.ok s
  | r :: rs, s =>
    (processRule lib allRules convert defaultMessage form s r).bind fun s' =>
      runPass lib allRules convert defaultMessage form rs s'

/-- `FormValidator.valid` (lines 131-135): the all-valid baseline, one
`\x7bisInvalid: false, message: ""\x7d` entry per registered rule's field. -/
def validBaseline (st : ValidatorState) : VResult :=
  { isValid := true
    fields :=
      st.fieldValidations.foldl
        (fun acc rule => setKey rule.field { isInvalid := false, message := "" } acc) [] }

/-- `FormValidator.validate` (lines 76-129): starts from the cached result
(or the baseline on the first call), runs the rule loop, recomputes
`isValid` as the absence of any invalid entry, caches and returns the
result. -/
def validate (lib : PredicateLib) (st : ValidatorState) (form : JSVal) :
    Except VError (VResult × ValidatorState) :=
  let validation := st.validationResult.getD (validBaseline st)
  (runPass lib st.fieldValidations st.convertNumberToString st.defaultMessage form
        st.fieldValidations
        { validation := validation.fields, formState := st.formState, invalidated := [] }).bind
    fun s =>
      let isValid := !s.validation.any fun p => p.2.isInvalid
      let result : VResult := { isValid := isValid, fields := s.validation }
      Except.ok (result, { st with formState := s.formState, validationResult := some result })

/-! Concrete instances used by the closed counterexamples and the witnesses. -/

/-- A Predicate Library with no entries at all (in particular, no entry for
any of the method names used below). -/
def emptyLib : PredicateLib := fun _ => none

/-- A directly supplied predicate: the value is a non-empty string. -/
def nonEmptyStrMethod : MethodSpec :=
  MethodSpec.fn fun v _ _ _ =>
    vBool (match v with | vStr s => s != "" | _ => true)

/-- A required-style rule on field `a`: valid when the value is a non-empty
string, evaluated even on empty values. -/
def ruleRequiredA : FieldRule :=
  { field := "a", method := some nonEmptyStrMethod, validWhen := true, skipIfEmpty := false }

/-- An engine that has registered only `ruleRequiredA`. -/
def stA : ValidatorState := { fieldValidations := [ruleRequiredA] }

/-- A rule whose method name resolves to nothing in the Predicate Library. -/
def badRule : FieldRule :=
  { field := "a", method := some (MethodSpec.byName "noSuchMethod"), skipIfEmpty := false }

/-- An engine that has registered only `badRule`. -/
def stBad : ValidatorState := { fieldValidations := [badRule] }

/-- A rule template without a `name`. -/
def noNameDecl : RuleDecl := { method := some (MethodSpec.byName "isEmpty") }

/-- A field declaration for field `b`, registered only after the first
`validate` call in the claim-C8 counterexample. -/
def declB : RuleDecl :=
  { field := some "b", method := some nonEmptyStrMethod, validWhen := some true,
    skipIfEmpty := some false }

/-- A cross-field predicate: both group members are equal non-empty strings
(read from the group context, like the matching-passwords rule of the
repository's test suite). -/
def pwMethod : MethodSpec :=
  MethodSpec.fn fun _ _ _ group =>
    match group with
    | vObj gs =>
      match lookupKey "password" gs, lookupKey "confirmPassword" gs with
      | some (vStr a), some (vStr b) => vBool (a != "" && b != "" && a == b)
      | _, _ => vBool false
    | _ => vBool false

/-- The matching-passwords rule bound to field `password`. -/
def pwRule : FieldRule :=
  { field := "password", method := some pwMethod, message := some "Passwords does not match",
    groupId := some "matchingPasswords", skipIfEmpty := false }

/-- The matching-passwords rule bound to field `confirmPassword`. -/
def cpwRule : FieldRule := { pwRule with field := "confirmPassword" }

/-- A failing rule on field `foo` carrying message `first`. -/
def ruleFooFirst : FieldRule :=
  { field := "foo", method := some (MethodSpec.fn fun _ _ _ _ => vBool false),
    validWhen := true, skipIfEmpty := false, message := some "first" }

/-- A passing rule on field `foo` carrying message `second`, registered after
`ruleFooFirst`. -/
def ruleFooSecond : FieldRule :=
  { field := "foo", method := some (MethodSpec.fn fun _ _ _ _ => vBool true),
    validWhen := true, skipIfEmpty := false, message := some "second" }

/-- A field declaration whose `name` matches no registered template. -/
def inlineDecl : RuleDecl :=
  { name := some "nope", field := some "z", method := some nonEmptyStrMethod,
    message := some "msg", args := some [vNum 3], validWhen := some false,
    skipIfEmpty := some false }

/-- An all-valid cached result for the engine `stA7`. -/
def resultA : VResult :=
  { isValid := true, fields := [("a", { isInvalid := false, message := "" })] }

/-- An engine holding `ruleRequiredA` together with a previously computed
(all-valid) validation result. -/
def stA7 : ValidatorState :=
  { fieldValidations := [ruleRequiredA], validationResult := some resultA }

/-- A form state for the claim-C10 witness: a function-valued field, a `NaN`
field and an ordinary string field. -/
def c10State : ValidatorState :=
  { formState := vObj [("f", vFunc), ("n", vNaN), ("k", vStr "keep")] }

/-! Lemmas about the path and association-list primitives. -/

theorem splitDotAux_ne_nil (cs : List Char) : ∀ acc, splitDotAux cs acc ≠ [] := by
  induction cs with
  | nil => intro acc; simp [splitDotAux]
  | cons c cs ih =>
    intro acc
    by_cases h : c = '.'
    · simp [splitDotAux, h]
    · simpa [splitDotAux, h] using ih _

theorem splitDot_eq_cons (s : String) : splitDot s = firstKey s :: (splitDot s).tail := by
  have h := splitDotAux_ne_nil s.toList []
  unfold firstKey splitDot at *
  cases hs : splitDotAux s.toList [] with
  | nil => exact absurd hs h
  | cons a l => simp [hs]

theorem getPropertyByPath_vObj_nil (p : String) : getPropertyByPath (vObj []) p = vUndef := by
  unfold getPropertyByPath
  rw [splitDot_eq_cons p]
  simp [objectPathGet, lookupKey]

theorem lookupKey_setKey_self {α : Type} (k : String) (v : α) (l : List (String × α)) :
    lookupKey k (setKey k v l) = some v := by
  induction l with
  | nil => simp [setKey, lookupKey]
  | cons p tl ih =>
    obtain ⟨k', w⟩ := p
    by_cases h : k' = k <;> simp [setKey, lookupKey, h, ih]

theorem lookupKey_setKey_ne {α : Type} (k k' : String) (v : α) (l : List (String × α))
    (h : k' ≠ k) : lookupKey k' (setKey k v l) = lookupKey k' l := by
  induction l with
  | nil => simp [setKey, lookupKey, Ne.symm h]
  | cons p tl ih =>
    obtain ⟨k'', w⟩ := p
    by_cases h3 : k'' = k'
    · subst h3
      simp [setKey, lookupKey, h]
    · by_cases h2 : k'' = k
      · subst h2
        simp [setKey, lookupKey, h3]
      · simp [setKey, lookupKey, h2, h3, ih]

theorem isSome_lookupKey_setKey {α : Type} (k k' : String) (v : α) (l : List (String × α))
    (h : (lookupKey k' l).isSome) : (lookupKey k' (setKey k v l)).isSome := by
  by_cases hk : k' = k
  · subst hk; simp [lookupKey_setKey_self]
  · rwa [lookupKey_setKey_ne _ _ _ _ hk]

theorem lookupKey_clearGroup (g : String) (k : String) (l : List (String × FieldEntry)) :
    lookupKey k (clearGroup g l) =
      (lookupKey k l).map fun e =>
        if e.groupId == some g then { isInvalid := false, message := "" } else e := by
  induction l with
  | nil => simp [clearGroup, lookupKey]
  | cons p tl ih =>
    obtain ⟨k', e⟩ := p
    by_cases hk : k' = k
    · simp [clearGroup, lookupKey, hk]
    · simpa [clearGroup, lookupKey, hk] using ih

theorem lookupKey_markValid_self (rule : FieldRule) (l : List (String × FieldEntry)) :
    lookupKey rule.field (markValid rule l) = some { isInvalid := false, message := "" } := by
  unfold markValid
  cases hg : rule.groupId with
  | none => simp [lookupKey_setKey_self]
  | some g =>
    by_cases hge : g = ""
    · simp [hge, lookupKey_setKey_self]
    · simp [hge, lookupKey_clearGroup, lookupKey_setKey_self]

theorem lookupKey_markValid_group (rule : FieldRule) (l : List (String × FieldEntry))
    (g k : String) (e : FieldEntry) (hg : rule.groupId = some g) (hge : g ≠ "")
    (hk : k ≠ rule.field) (he : lookupKey k l = some e) (heg : e.groupId = some g) :
    lookupKey k (markValid rule l) = some { isInvalid := false, message := "" } := by
  unfold markValid
  rw [hg]
  simp [hge, lookupKey_clearGroup, lookupKey_setKey_ne _ _ _ _ hk, he, heg]

theorem isSome_lookupKey_markValid (rule : FieldRule) (k : String)
    (l : List (String × FieldEntry)) (h : (lookupKey k l).isSome) :
    (lookupKey k (markValid rule l)).isSome := by
  unfold markValid
  have hs : (lookupKey k (setKey rule.field { isInvalid := false, message := "" } l)).isSome :=
    isSome_lookupKey_setKey _ _ _ _ h
  cases rule.groupId with
  | none => exact hs
  | some g =>
    by_cases hge : g = ""
    · simpa [hge] using hs
    · simp only [hge, if_neg, lookupKey_clearGroup]
      simpa [lookupKey_clearGroup, Option.isSome_map] using hs

/-! Lemmas about one iteration of the rule loop. -/

theorem getValidationFunction_eq (rule : FieldRule) :
    getValidationFunction rule = Except.ok (resolveMethodOf rule) := rfl

theorem processRule_undef (lib : PredicateLib) (allRules : List FieldRule) (convert : Bool)
    (dm : String) (form : JSVal) (s : PassState) (rule : FieldRule)
    (hfv : getPropertyByPath form rule.field = vUndef) :
    processRule lib allRules convert dm form s rule = Except.ok s := by
  simp [processRule, hfv, isUndef]

theorem processRule_invalidated (lib : PredicateLib) (allRules : List FieldRule) (convert : Bool)
    (dm : String) (form : JSVal) (s : PassState) (rule : FieldRule)
    (h : s.invalidated.contains rule.field = true) :
    ∃ fs', processRule lib allRules convert dm form s rule =
      Except.ok ⟨s.validation, fs', s.invalidated⟩ := by
  have h' : rule.field ∈ s.invalidated := by simpa using h
  exact
    ⟨if isUndef (getPropertyByPath form rule.field) = true then s.formState
      else bindValue rule.field (getPropertyByPath form rule.field) s.formState,
      by simp [processRule, h']⟩

theorem processRule_match (lib : PredicateLib) (allRules : List FieldRule) (convert : Bool)
    (dm : String) (form : JSVal) (s : PassState) (rule : FieldRule) (fv res : JSVal)
    (hfv : getPropertyByPath form rule.field = fv)
    (hdef : isUndef fv = false)
    (hninv : s.invalidated.contains rule.field = false)
    (hskip : (isEmpty (convertValue convert fv) && rule.skipIfEmpty) = false)
    (hres : invokeMethod lib (resolveMethodOf rule) (convertValue convert fv) rule.args
        (bindValue rule.field fv s.formState)
        (getGroupSibblingValues allRules rule (bindValue rule.field fv s.formState)) =
      Except.ok res)
    (hmatch : strictEqBool res rule.validWhen = true) :
    processRule lib allRules convert dm form s rule =
      Except.ok
        { validation := markValid rule s.validation,
          formState := bindValue rule.field fv s.formState,
          invalidated := s.invalidated } := by
  have hninv' : rule.field ∉ s.invalidated := by simpa using hninv
  have hskip' : ¬(isEmpty (convertValue convert fv) = true ∧ rule.skipIfEmpty = true) := by
    simpa using hskip
  simp [processRule, hfv, hdef, hninv', getValidationFunction_eq, Except.bind, hskip',
    hres, hmatch]

theorem processRule_mismatch (lib : PredicateLib) (allRules : List FieldRule) (convert : Bool)
    (dm : String) (form : JSVal) (s : PassState) (rule : FieldRule) (fv res : JSVal)
    (hfv : getPropertyByPath form rule.field = fv)
    (hdef : isUndef fv = false)
    (hninv : s.invalidated.contains rule.field = false)
    (hskip : (isEmpty (convertValue convert fv) && rule.skipIfEmpty) = false)
    (hres : invokeMethod lib (resolveMethodOf rule) (convertValue convert fv) rule.args
        (bindValue rule.field fv s.formState)
        (getGroupSibblingValues allRules rule (bindValue rule.field fv s.formState)) =
      Except.ok res)
    (hmatch : strictEqBool res rule.validWhen = false) :
    processRule lib allRules convert dm form s rule =
      Except.ok
        { validation :=
            setKey rule.field
              { isInvalid := true, message := jsOrStr rule.message dm, groupId := rule.groupId }
              s.validation,
          formState := bindValue rule.field fv s.formState,
          invalidated := rule.field :: s.invalidated } := by
  have hninv' : rule.field ∉ s.invalidated := by simpa using hninv
  have hskip' : ¬(isEmpty (convertValue convert fv) = true ∧ rule.skipIfEmpty = true) := by
    simpa using hskip
  simp [processRule, hfv, hdef, hninv', getValidationFunction_eq, Except.bind, hskip',
    hres, hmatch]

theorem runPass_empty_form (lib : PredicateLib) (allRules : List FieldRule) (convert : Bool)
    (dm : String) (rules : List FieldRule) (s : PassState) :
    runPass lib allRules convert dm (vObj []) rules s = Except.ok s := by
  induction rules generalizing s with
  | nil => rfl
  | cons r rs ih =>
    rw [runPass, processRule_undef lib allRules convert dm _ s r (getPropertyByPath_vObj_nil _)]
    simpa [Except.bind] using ih s

theorem runPass_invalidated_same_field (lib : PredicateLib) (allRules : List FieldRule)
    (convert : Bool) (dm : String) (form : JSVal) (f : String) (rs : List FieldRule)
    (hrs : ∀ r ∈ rs, r.field = f) :
    ∀ s : PassState, s.invalidated.contains f = true →
      ∃ fs', runPass lib allRules convert dm form rs s =
        Except.ok ⟨s.validation, fs', s.invalidated⟩ := by
  induction rs with
  | nil => exact fun s _ => ⟨s.formState, rfl⟩
  | cons r rs ih =>
    intro s hc
    have hrf : r.field = f := hrs r (by simp)
    obtain ⟨fs₁, h₁⟩ :=
      processRule_invalidated lib allRules convert dm form s r (by rwa [hrf])
    obtain ⟨fs₂, h₂⟩ := ih (fun r' hr' => hrs r' (by simp [hr'])) ⟨s.validation, fs₁, s.invalidated⟩ hc
    exact ⟨fs₂, by rw [runPass, h₁]; simpa [Except.bind] using h₂⟩

theorem processRule_preserves_key (lib : PredicateLib) (allRules : List FieldRule)
    (convert : Bool) (dm : String) (form : JSVal) (s s' : PassState) (rule : FieldRule)
    (h : processRule lib allRules convert dm form s rule = Except.ok s') (k : String)
    (hk : (lookupKey k s.validation).isSome) : (lookupKey k s'.validation).isSome := by
  simp only [processRule, getValidationFunction_eq, Except.bind] at h
  split at h
  · cases h
    exact hk
  · split at h
    · cases h
      exact isSome_lookupKey_markValid _ _ _ hk
    · split at h
      · cases h
      · split at h
        · cases h
          exact isSome_lookupKey_markValid _ _ _ hk
        · cases h
          exact isSome_lookupKey_setKey _ _ _ _ hk

theorem runPass_preserves_key (lib : PredicateLib) (allRules : List FieldRule) (convert : Bool)
    (dm : String) (form : JSVal) (rs : List FieldRule) :
    ∀ (s s' : PassState), runPass lib allRules convert dm form rs s = Except.ok s' →
      ∀ k, (lookupKey k s.validation).isSome → (lookupKey k s'.validation).isSome := by
  induction rs with
  | nil =>
    intro s s' h k hk
    cases h
    exact hk
  | cons r rs ih =>
    intro s s' h k hk
    rw [runPass] at h
    cases hp : processRule lib allRules convert dm form s r with
    | error e => rw [hp] at h; cases h
    | ok s₁ =>
      rw [hp] at h
      exact ih s₁ s' (by simpa [Except.bind] using h) k
        (processRule_preserves_key lib allRules convert dm form s s₁ r hp k hk)

theorem foldl_setKey_preserves_key (rules : List FieldRule) :
    ∀ (init : List (String × FieldEntry)) (k : String), (lookupKey k init).isSome →
      (lookupKey k
        (rules.foldl
          (fun acc rule => setKey rule.field { isInvalid := false, message := "" } acc)
          init)).isSome := by
  induction rules with
  | nil => intro init k hk; exact hk
  | cons r rs ih =>
    intro init k hk
    exact ih _ k (isSome_lookupKey_setKey _ _ _ _ hk)

theorem mem_foldl_setKey_isSome (rules : List FieldRule) :
    ∀ (init : List (String × FieldEntry)) (r : FieldRule), r ∈ rules →
      (lookupKey r.field
        (rules.foldl
          (fun acc rule => setKey rule.field { isInvalid := false, message := "" } acc)
          init)).isSome := by
  induction rules with
  | nil => intro init r hr; cases hr
  | cons r' rs ih =>
    intro init r hr
    rcases List.mem_cons.mp hr with h | h
    · subst h
      simp only [List.foldl]
      exact foldl_setKey_preserves_key rs _ r.field (by simp [lookupKey_setKey_self])
    · simp only [List.foldl]
      exact ih _ r h

theorem validBaseline_isSome (st : ValidatorState) (r : FieldRule)
    (hr : r ∈ st.fieldValidations) : (lookupKey r.field (validBaseline st).fields).isSome :=
  mem_foldl_setKey_isSome st.fieldValidations [] r hr

/-! Lemmas about the JSON round trip of `bindValue`. -/

theorem lookupKey_jsonRoundTripObj_none (k : String) (fs : List (String × JSVal))
    (h : k ∉ fs.map Prod.fst) : lookupKey k (jsonRoundTripObj fs) = none := by
  induction fs with
  | nil => rfl
  | cons p tl ih =>
    obtain ⟨k', x⟩ := p
    simp only [List.map, List.mem_cons, not_or] at h
    obtain ⟨hk, htl⟩ := h
    cases hr : jsonRoundTrip x <;>
      simp [jsonRoundTripObj, hr, lookupKey, Ne.symm hk, ih htl]

theorem lookupKey_jsonRoundTripObj (fs : List (String × JSVal)) (k : String) (w : JSVal)
    (hnodup : (fs.map Prod.fst).Nodup) (hk : lookupKey k fs = some w) :
    lookupKey k (jsonRoundTripObj fs) = jsonRoundTripField w := by
  induction fs with
  | nil => cases hk
  | cons p tl ih =>
    obtain ⟨k', x⟩ := p
    simp only [List.map, List.nodup_cons] at hnodup
    obtain ⟨hnotin, hnd⟩ := hnodup
    by_cases hke : k' = k
    · subst hke
      rw [lookupKey] at hk
      simp only [if_pos rfl] at hk
      cases hk
      have hnone : lookupKey k' (jsonRoundTripObj tl) = none :=
        lookupKey_jsonRoundTripObj_none k' tl hnotin
      cases hr : jsonRoundTrip w <;>
        simp [jsonRoundTripObj, hr, lookupKey, jsonRoundTripField, hnone]
    · rw [lookupKey] at hk
      simp only [if_neg hke] at hk
      cases hr : jsonRoundTrip x <;>
        simp [jsonRoundTripObj, hr, lookupKey, hke, ih hnd hk]

theorem objectPathSet_vObj_cons (l : List (String × JSVal)) (k0 : String)
    (rest : List String) (v : JSVal) :
    ∃ u, objectPathSet (vObj l) (k0 :: rest) v = vObj (setKey k0 u l) := by
  cases rest with
  | nil => exact ⟨v, rfl⟩
  | cons k2 r2 => exact ⟨_, rfl⟩

theorem bindValue_vObj (fs : List (String × JSVal)) (path : String) (v : JSVal) :
    ∃ u, bindValue path v (vObj fs) =
      vObj (setKey (firstKey path) u (jsonRoundTripObj fs)) := by
  obtain ⟨u, hu⟩ :=
    objectPathSet_vObj_cons (jsonRoundTripObj fs) (firstKey path) ((splitDot path).tail) v
  refine ⟨u, ?_⟩
  unfold bindValue
  rw [splitDot_eq_cons path]
  simpa [jsTruthy, jsonRoundTrip] using hu

/-! The claims. -/

/-- C1, amended: `validate` reads each rule's value from the partial state
passed to the current call, not from the merged Form State Cache; a rule
whose field is absent from the current partial state is skipped entirely —
its pass-state is left unchanged — even when the cache holds a value for
that field (set by an earlier call or by `setFieldValue`). -/
theorem validate_reads_value_from_partial_state_only (lib : PredicateLib)
    (allRules : List FieldRule) (convert : Bool) (dm : String) (form : JSVal) (s : PassState)
    (rule : FieldRule) (habsent : getPropertyByPath form rule.field = vUndef)
    (_hcached : isUndef (getPropertyByPath s.formState rule.field) = false) :
    processRule lib allRules convert dm form s rule = Except.ok s :=
  processRule_undef lib allRules convert dm form s rule habsent

theorem validate_reads_value_from_partial_state_only_witness :
    getPropertyByPath (vObj []) ruleRequiredA.field = vUndef ∧
    isUndef (getPropertyByPath (vObj [("a", vStr "x")]) ruleRequiredA.field) = false ∧
    processRule emptyLib [ruleRequiredA] true "Invalid" (vObj [])
        ⟨[], vObj [("a", vStr "x")], []⟩ ruleRequiredA =
      Except.ok ⟨[], vObj [("a", vStr "x")], []⟩ :=
  ⟨rfl, rfl,
    validate_reads_value_from_partial_state_only emptyLib [ruleRequiredA] true "Invalid"
      (vObj []) ⟨[], vObj [("a", vStr "x")], []⟩ ruleRequiredA rfl rfl⟩

/-- C1, counterexample: the engine holds the cached value `""` for field `a`
(set via `setFieldValue`), the rule's predicate at that cached value differs
from `validWhen` (so evaluating against the merged cache would mark the
field invalid), yet `validate` with an empty partial state reports the field
valid and the whole form valid — the rule was not evaluated against the
cached value. -/
theorem validate_ignores_cached_value_cex :
    getPropertyByPath (setFieldValue stA "a" (vStr "")).formState "a" = vStr "" ∧
    invokeMethod emptyLib (resolveMethodOf ruleRequiredA) (convertValue true (vStr ""))
        ruleRequiredA.args (setFieldValue stA "a" (vStr "")).formState (vObj []) =
      Except.ok (vBool false) ∧
    ruleRequiredA.validWhen = true ∧
    (validate emptyLib (setFieldValue stA "a" (vStr "")) (vObj [])).map
        (fun p => (p.1.isValid, lookupKey "a" p.1.fields)) =
      Except.ok (true, some { isInvalid := false, message := "" }) :=
  ⟨rfl, rfl, rfl, rfl⟩

/-- C2: when a rule carrying a `groupId` evaluates and its predicate result
strictly equals `validWhen`, the engine sets the rule's field entry to
`isInvalid: false, message: ""` and also resets every other entry currently
tagged with the same `groupId` to `isInvalid: false, message: ""`. -/
theorem validate_group_match_clears_group (lib : PredicateLib) (allRules : List FieldRule)
    (convert : Bool) (dm : String) (form : JSVal) (s : PassState) (rule : FieldRule)
    (fv res : JSVal) (g : String)
    (hg : rule.groupId = some g) (hge : g ≠ "")
    (hfv : getPropertyByPath form rule.field = fv)
    (hdef : isUndef fv = false)
    (hninv : s.invalidated.contains rule.field = false)
    (hskip : (isEmpty (convertValue convert fv) && rule.skipIfEmpty) = false)
    (hres : invokeMethod lib (resolveMethodOf rule) (convertValue convert fv) rule.args
        (bindValue rule.field fv s.formState)
        (getGroupSibblingValues allRules rule (bindValue rule.field fv s.formState)) =
      Except.ok res)
    (hmatch : strictEqBool res rule.validWhen = true) :
    ∃ s' : PassState, processRule lib allRules convert dm form s rule = Except.ok s' ∧
      lookupKey rule.field s'.validation = some { isInvalid := false, message := "" } ∧
      ∀ (k : String) (e : FieldEntry), k ≠ rule.field → lookupKey k s.validation = some e →
        e.groupId = some g →
        lookupKey k s'.validation = some { isInvalid := false, message := "" } := by
  refine
    ⟨_, processRule_match lib allRules convert dm form s rule fv res hfv hdef hninv hskip
        hres hmatch, lookupKey_markValid_self rule s.validation, ?_⟩
  intro k e hkne hke heg
  exact lookupKey_markValid_group rule s.validation g k e hg hge hkne hke heg

theorem validate_group_match_clears_group_witness :
    cpwRule.groupId = some "matchingPasswords" ∧
    "matchingPasswords" ≠ "" ∧
    getPropertyByPath (vObj [("confirmPassword", vStr "P1")]) cpwRule.field = vStr "P1" ∧
    isUndef (vStr "P1") = false ∧
    (([] : List String).contains cpwRule.field) = false ∧
    (isEmpty (convertValue true (vStr "P1")) && cpwRule.skipIfEmpty) = false ∧
    invokeMethod emptyLib (resolveMethodOf cpwRule) (convertValue true (vStr "P1"))
        cpwRule.args
        (bindValue cpwRule.field (vStr "P1") (vObj [("password", vStr "P1")]))
        (getGroupSibblingValues [pwRule, cpwRule] cpwRule
          (bindValue cpwRule.field (vStr "P1") (vObj [("password", vStr "P1")]))) =
      Except.ok (vBool true) ∧
    strictEqBool (vBool true) cpwRule.validWhen = true ∧
    (∃ s' : PassState, processRule emptyLib [pwRule, cpwRule] true "Invalid"
          (vObj [("confirmPassword", vStr "P1")])
          ⟨[("password",
              { isInvalid := true, message := "Passwords does not match",
                groupId := some "matchingPasswords" }),
            ("confirmPassword", { isInvalid := false, message := "" })],
            vObj [("password", vStr "P1")], []⟩ cpwRule = Except.ok s' ∧
      lookupKey cpwRule.field s'.validation = some { isInvalid := false, message := "" } ∧
      ∀ (k : String) (e : FieldEntry), k ≠ cpwRule.field →
        lookupKey k
            [("password",
              { isInvalid := true, message := "Passwords does not match",
                groupId := some "matchingPasswords" }),
              ("confirmPassword", { isInvalid := false, message := "" })] = some e →
          e.groupId = some "matchingPasswords" →
          lookupKey k s'.validation = some { isInvalid := false, message := "" }) :=
  ⟨rfl, (by decide), rfl, rfl, rfl, rfl, rfl, rfl,
    validate_group_match_clears_group emptyLib [pwRule, cpwRule] true "Invalid"
      (vObj [("confirmPassword", vStr "P1")])
      ⟨[("password",
          { isInvalid := true, message := "Passwords does not match",
            groupId := some "matchingPasswords" }),
        ("confirmPassword", { isInvalid := false, message := "" })],
        vObj [("password", vStr "P1")], []⟩ cpwRule (vStr "P1") (vBool true)
      "matchingPasswords" rfl (by decide) rfl rfl rfl rfl rfl rfl⟩

/-- C3: the `isEmpty` helper as implemented contradicts the specified
emptiness test on scalars and records: falsy scalars (`0`, `false`, `null`)
are reported non-empty, truthy scalars (`1`) are reported empty, and the
empty record is reported non-empty (its branch compares against a fresh
object literal by reference); only the string and array branches behave as
specified. -/
theorem isEmpty_truthiness_of_scalars :
    isEmpty (vNum 0) = false ∧ isEmpty (vBool false) = false ∧ isEmpty vNull = false ∧
    isEmpty (vNum 1) = true ∧ isEmpty (vBool true) = true ∧ isEmpty (vObj []) = false ∧
    isEmpty (vStr "") = true ∧ isEmpty (vArr []) = true ∧ isEmpty (vStr "x") = false := by
  repeat first | constructor | rfl

/-- C4: `getValidationFunction` never throws — the `if (!method)` guard is
unreachable because the resolved method is always a function value — and an
unresolved method name instead surfaces as a TypeError raised while the
predicate is invoked inside the `validate` data flow. -/
theorem unresolved_method_fails_inside_validate :
    (∀ rule : FieldRule, getValidationFunction rule = Except.ok (resolveMethodOf rule)) ∧
    validate emptyLib stBad (vObj [("a", vStr "x")]) =
      Except.error (VError.methodNotAFunction "noSuchMethod") :=
  ⟨fun _ => rfl, rfl⟩

/-- C5, counterexample: `registerGlobalRules` accepts a template with no
`name` without any error, storing it under the coerced key `"undefined"`,
while `registerFormRules` throws on the same input — the two entry points do
not share the name-check contract. -/
theorem registerGlobalRules_missing_name_cex :
    registerGlobalRules [] [noNameDecl] = [("undefined", noNameDecl)] ∧
    registerFormRules [] [noNameDecl] = Except.error VError.missingRuleName :=
  ⟨rfl, rfl⟩

/-- C5, amended: instance-scoped `registerFormRules` fails with an error on a
template lacking a name, but static `registerGlobalRules` performs no name
check at all — it never fails, and stores a nameless template under the
property key `"undefined"`. -/
theorem registerGlobalRules_skips_name_check (g : List (String × RuleDecl)) (r : RuleDecl)
    (rs : List RuleDecl) (hr : r.name = none) :
    registerFormRules g (r :: rs) = Except.error VError.missingRuleName ∧
    lookupKey "undefined" (registerGlobalRules g [r]) = some r := by
  constructor
  · show registerFormRules g (r :: rs) = Except.error VError.missingRuleName
    unfold registerFormRules
    simp only [List.foldlM_cons]
    rw [hr]
    rfl
  · simp [registerGlobalRules, hr, lookupKey_setKey_self]

theorem registerGlobalRules_skips_name_check_witness :
    noNameDecl.name = none ∧
    registerFormRules [] [noNameDecl] = Except.error VError.missingRuleName ∧
    lookupKey "undefined" (registerGlobalRules [] [noNameDecl]) = some noNameDecl :=
  ⟨rfl, (registerGlobalRules_skips_name_check [] noNameDecl [] rfl).1,
    (registerGlobalRules_skips_name_check [] noNameDecl [] rfl).2⟩

/-- C6: within one `validate` pass, once a rule has marked a field invalid,
every later rule targeting the same field is skipped, so after the pass the
field's entry still carries the first failing rule's message and `groupId`,
and the field stays in the invalidated-this-pass set. -/
theorem validate_first_failing_rule_wins (lib : PredicateLib) (allRules : List FieldRule)
    (convert : Bool) (dm : String) (form : JSVal) (s : PassState) (rule : FieldRule)
    (fv res : JSVal) (rs : List FieldRule)
    (hrs : ∀ r ∈ rs, r.field = rule.field)
    (hfv : getPropertyByPath form rule.field = fv)
    (hdef : isUndef fv = false)
    (hninv : s.invalidated.contains rule.field = false)
    (hskip : (isEmpty (convertValue convert fv) && rule.skipIfEmpty) = false)
    (hres : invokeMethod lib (resolveMethodOf rule) (convertValue convert fv) rule.args
        (bindValue rule.field fv s.formState)
        (getGroupSibblingValues allRules rule (bindValue rule.field fv s.formState)) =
      Except.ok res)
    (hmatch : strictEqBool res rule.validWhen = false) :
    ∃ s' : PassState, runPass lib allRules convert dm form (rule :: rs) s = Except.ok s' ∧
      lookupKey rule.field s'.validation =
        some { isInvalid := true, message := jsOrStr rule.message dm,
               groupId := rule.groupId } ∧
      s'.invalidated = rule.field :: s.invalidated := by
  have h1 := processRule_mismatch lib allRules convert dm form s rule fv res hfv hdef hninv
    hskip hres hmatch
  have hc : (PassState.invalidated
      ⟨setKey rule.field
          { isInvalid := true, message := jsOrStr rule.message dm, groupId := rule.groupId }
          s.validation,
        bindValue rule.field fv s.formState, rule.field :: s.invalidated⟩).contains
      rule.field = true := by
    simp
  obtain ⟨fs', h2⟩ :=
    runPass_invalidated_same_field lib allRules convert dm form rule.field rs hrs _ hc
  refine
    ⟨⟨setKey rule.field
        { isInvalid := true, message := jsOrStr rule.message dm, groupId := rule.groupId }
        s.validation, fs', rule.field :: s.invalidated⟩, ?_, ?_, rfl⟩
  · rw [runPass, h1]
    simpa [Except.bind] using h2
  · exact lookupKey_setKey_self rule.field _ s.validation

theorem validate_first_failing_rule_wins_witness :
    (∀ r ∈ [ruleFooSecond], r.field = ruleFooFirst.field) ∧
    getPropertyByPath (vObj [("foo", vStr "x")]) ruleFooFirst.field = vStr "x" ∧
    isUndef (vStr "x") = false ∧
    (([] : List String).contains ruleFooFirst.field) = false ∧
    (isEmpty (convertValue true (vStr "x")) && ruleFooFirst.skipIfEmpty) = false ∧
    invokeMethod emptyLib (resolveMethodOf ruleFooFirst) (convertValue true (vStr "x"))
        ruleFooFirst.args (bindValue ruleFooFirst.field (vStr "x") (vObj []))
        (getGroupSibblingValues [ruleFooFirst, ruleFooSecond] ruleFooFirst
          (bindValue ruleFooFirst.field (vStr "x") (vObj []))) =
      Except.ok (vBool false) ∧
    strictEqBool (vBool false) ruleFooFirst.validWhen = false ∧
    (∃ s' : PassState, runPass emptyLib [ruleFooFirst, ruleFooSecond] true "Invalid"
          (vObj [("foo", vStr "x")]) [ruleFooFirst, ruleFooSecond]
          ⟨[("foo", { isInvalid := false, message := "" })], vObj [], []⟩ = Except.ok s' ∧
      lookupKey ruleFooFirst.field s'.validation =
        some { isInvalid := true, message := jsOrStr ruleFooFirst.message "Invalid",
               groupId := ruleFooFirst.groupId } ∧
      s'.invalidated = ruleFooFirst.field :: ([] : List String)) :=
  ⟨(by intro r hr; simp at hr; subst hr; rfl), rfl, rfl, rfl, rfl, rfl, rfl,
    validate_first_failing_rule_wins emptyLib [ruleFooFirst, ruleFooSecond] true "Invalid"
      (vObj [("foo", vStr "x")])
      ⟨[("foo", { isInvalid := false, message := "" })], vObj [], []⟩ ruleFooFirst
      (vStr "x") (vBool false) [ruleFooSecond]
      (by intro r hr; simp at hr; subst hr; rfl) rfl rfl rfl rfl rfl rfl⟩

/-- C7: with an empty partial state, `validate` leaves a previously computed
result unchanged: it returns exactly the cached result and leaves the engine
state exactly as it was, so repeated `validate` with no new data never
changes anything (the hypothesis states that the cached `isValid` flag
agrees with its own entries, which holds of every result `validate`
produces). -/
theorem validate_empty_state_idempotent (lib : PredicateLib) (st : ValidatorState)
    (r : VResult) (h0 : st.validationResult = some r)
    (hinv : r.isValid = !(r.fields.any fun p => p.2.isInvalid)) :
    validate lib st (vObj []) = Except.ok (r, st) := by
  unfold validate
  rw [h0]
  simp only [Option.getD_some]
  rw [runPass_empty_form]
  simp only [Except.bind]
  have hr' : ({ isValid := !(r.fields.any fun p => p.2.isInvalid), fields := r.fields } :
      VResult) = r := by
    rw [← hinv]
  rw [hr', ← h0]

theorem validate_empty_state_idempotent_witness :
    stA7.validationResult = some resultA ∧
    resultA.isValid = !(resultA.fields.any fun p => p.2.isInvalid) ∧
    validate emptyLib stA7 (vObj []) = Except.ok (resultA, stA7) :=
  ⟨rfl, by decide,
    validate_empty_state_idempotent emptyLib stA7 resultA rfl (by decide)⟩

/-- C8, counterexample: after a first `validate` call, a rule for field `b`
is registered; a further `validate` call returns a result with an entry for
`a` (registered before the first call) but no entry at all for `b`, even
though `b` is then a registered field — contradicting the claim that every
field with a registered rule has an entry. -/
theorem validate_late_rule_missing_entry_cex :
    ((validate emptyLib stA (vObj [])).bind fun p =>
        (registerFieldValidations p.2 [declB]).bind fun st2 =>
          (validate emptyLib st2 (vObj [])).map fun q =>
            (lookupKey "a" q.1.fields, lookupKey "b" q.1.fields)) =
      Except.ok (some { isInvalid := false, message := "" }, none) ∧
    ((validate emptyLib stA (vObj [])).bind fun p =>
        (registerFieldValidations p.2 [declB]).map fun st2 =>
          st2.fieldValidations.map fun v => v.field) =
      Except.ok ["a", "b"] :=
  ⟨rfl, rfl⟩

/-- C8, amended: on the first `validate` call (no cached result yet), every
field with a registered rule receives an entry in the returned result; a
rule registered after the first call gains an entry only once its value
appears in a partial state. -/
theorem validate_first_call_entry_for_every_rule (lib : PredicateLib) (st : ValidatorState)
    (form : JSVal) (res : VResult) (st' : ValidatorState)
    (h0 : st.validationResult = none)
    (hrun : validate lib st form = Except.ok (res, st')) :
    ∀ r ∈ st.fieldValidations, (lookupKey r.field res.fields).isSome := by
  intro r hr
  unfold validate at hrun
  rw [h0] at hrun
  simp only [Option.getD_none] at hrun
  cases hp : runPass lib st.fieldValidations st.convertNumberToString st.defaultMessage form
      st.fieldValidations
      { validation := (validBaseline st).fields, formState := st.formState,
        invalidated := [] } with
  | error e =>
    rw [hp] at hrun
    simp [Except.bind] at hrun
  | ok s =>
    rw [hp] at hrun
    simp only [Except.bind] at hrun
    injection hrun with h1
    injection h1 with ha hb
    have hbase := validBaseline_isSome st r hr
    have := runPass_preserves_key lib st.fieldValidations st.convertNumberToString
      st.defaultMessage form st.fieldValidations _ s hp r.field hbase
    rw [← ha]
    exact this

theorem validate_first_call_entry_for_every_rule_witness :
    stA.validationResult = none ∧
    validate emptyLib stA (vObj []) =
      Except.ok (⟨true, [("a", { isInvalid := false, message := "" })]⟩,
        { stA with
          validationResult := some ⟨true, [("a", { isInvalid := false, message := "" })]⟩ }) ∧
    ∀ r ∈ stA.fieldValidations,
      (lookupKey r.field
        (VResult.fields ⟨true, [("a", { isInvalid := false, message := "" })]⟩)).isSome :=
  ⟨rfl, rfl,
    validate_first_call_entry_for_every_rule emptyLib stA (vObj [])
      ⟨true, [("a", { isInvalid := false, message := "" })]⟩
      { stA with
        validationResult := some ⟨true, [("a", { isInvalid := false, message := "" })]⟩ }
      rfl rfl⟩

/-- C9: registering a field declaration whose `name` matches no instance or
global template raises no error; the resolved rule keeps the declaration's
own `method`, `args`, `validWhen`, `skipIfEmpty` and `message` (the missing
template resolves to the empty object, contributing nothing). -/
theorem register_unknown_template_uses_declaration (st : ValidatorState) (decl : RuleDecl)
    (n f : String)
    (hn : decl.name = some n) (hne : n ≠ "")
    (hf : decl.field = some f)
    (hlookup : lookupKey n st.formRules = none)
    (hdup : ∀ v ∈ st.fieldValidations, ¬(v.field = f ∧ v.name = some n))
    (hmsg : decl.message ≠ some "") :
    registerFieldValidations st [decl] =
      Except.ok
        { st with
          fieldValidations := st.fieldValidations ++
            [{ field := f, groupId := decl.groupId, name := some n,
               message := decl.message, method := decl.method,
               args := decl.args.getD [], validWhen := decl.validWhen.getD true,
               skipIfEmpty := decl.skipIfEmpty.getD true }] } := by
  have hT : optStrTruthy decl.name = true := by
    rw [hn]
    simp [optStrTruthy, hne]
  have hany : (st.fieldValidations.any fun v =>
      decide (v.field = decl.field.getD "undefined") && decide (v.name = decl.name)) =
      false := by
    rw [List.any_eq_false]
    intro v hv
    rw [hf, hn]
    simpa using fun h1 h2 => hdup v hv ⟨h1, h2⟩
  have hm : jsOrOptStr decl.message Option.none = decl.message := by
    cases hdm : decl.message with
    | none => simp [jsOrOptStr, optStrTruthy]
    | some m =>
      have hmne : m ≠ "" := by
        intro e
        exact hmsg (by rw [hdm, e])
      simp [jsOrOptStr, optStrTruthy, hmne]
  have hmrg : resolveFieldValidation st.formRules decl =
      { field := f, groupId := decl.groupId, name := some n, message := decl.message,
        method := decl.method, args := decl.args.getD [],
        validWhen := decl.validWhen.getD true,
        skipIfEmpty := decl.skipIfEmpty.getD true } := by
    simp [resolveFieldValidation, hn, hf, hlookup, methodTruthy, hm]
  unfold registerFieldValidations
  simp only [List.foldlM_cons, List.foldlM_nil, hT, hany, Bool.not_true, Bool.false_and,
    Bool.and_false, Bool.false_eq_true, if_false, hmrg]
  rfl

theorem register_unknown_template_uses_declaration_witness :
    inlineDecl.name = some "nope" ∧
    "nope" ≠ "" ∧
    inlineDecl.field = some "z" ∧
    lookupKey "nope" (ValidatorState.formRules {}) = none ∧
    (∀ v ∈ ValidatorState.fieldValidations {}, ¬(v.field = "z" ∧ v.name = some "nope")) ∧
    inlineDecl.message ≠ some "" ∧
    registerFieldValidations {} [inlineDecl] =
      Except.ok
        { ({} : ValidatorState) with
          fieldValidations :=
            [{ field := "z", groupId := inlineDecl.groupId, name := some "nope",
               message := inlineDecl.message, method := inlineDecl.method,
               args := inlineDecl.args.getD [], validWhen := inlineDecl.validWhen.getD true,
               skipIfEmpty := inlineDecl.skipIfEmpty.getD true }] } :=
  ⟨rfl, (by decide), rfl, rfl, (by intro v hv; cases hv), (by simp [inlineDecl]),
    register_unknown_template_uses_declaration {} inlineDecl "nope" "z" rfl (by decide) rfl
      rfl (by intro v hv; cases hv) (by simp [inlineDecl])⟩

/-- C10: every merge into the Form State Cache goes through `bindValue`,
which rebuilds the snapshot as a JSON stringify/parse round trip of the
previous state before setting the target path (the model is pure, so the
previous snapshot itself is untouched by construction); consequently any
other field of the previous state survives exactly as its JSON round trip
dictates — an `undefined` or function value is dropped, `NaN` becomes
`null`, a `Date` becomes its ISO string, and JSON-representable values are
preserved. -/
theorem setFieldValue_json_roundtrip (st : ValidatorState) (fs : List (String × JSVal))
    (path k : String) (v w : JSVal)
    (hst : st.formState = vObj fs)
    (hnodup : (fs.map Prod.fst).Nodup)
    (hk : lookupKey k fs = some w)
    (hne : firstKey path ≠ k) :
    ∃ gs, (setFieldValue st path v).formState = vObj gs ∧
      lookupKey k gs = jsonRoundTripField w := by
  obtain ⟨u, hu⟩ := bindValue_vObj fs path v
  refine ⟨setKey (firstKey path) u (jsonRoundTripObj fs), ?_, ?_⟩
  · show bindValue path v st.formState = _
    rw [hst, hu]
  · rw [lookupKey_setKey_ne _ _ _ _ (Ne.symm hne)]
    exact lookupKey_jsonRoundTripObj fs k w hnodup hk

theorem setFieldValue_json_roundtrip_witness :
    c10State.formState = vObj [("f", vFunc), ("n", vNaN), ("k", vStr "keep")] ∧
    ((([("f", vFunc), ("n", vNaN), ("k", vStr "keep")] :
        List (String × JSVal)).map Prod.fst).Nodup) ∧
    lookupKey "f" [("f", vFunc), ("n", vNaN), ("k", vStr "keep")] = some vFunc ∧
    firstKey "x" ≠ "f" ∧
    (∃ gs, (setFieldValue c10State "x" (vNum 1)).formState = vObj gs ∧
      lookupKey "f" gs = jsonRoundTripField vFunc) :=
  ⟨rfl, by decide, rfl, by decide,
    setFieldValue_json_roundtrip c10State [("f", vFunc), ("n", vNaN), ("k", vStr "keep")]
      "x" "f" (vNum 1) vFunc rfl (by decide) rfl (by decide)⟩

end ReactInstaValidation
